import Mathlib

/-!
Shallow embedding of `Source/ComputationNetworkLib/ComputationNode.h`
(the node abstraction of the CNTK computation network library).

Nodes live in an arena: a graph is a `List Node`, an edge is the index of
the target node, and a null `ComputationNodeBasePtr` is `none`.  The
device-resident `Matrix<ElemType>` backend is modelled by `Mat` (dense or
sparse format, row/column counts, and a flat list of entries); fatal
`RuntimeError` / `LogicError` / `InvalidArgument` calls and null-pointer
dereferences become `Except CErr` results.
-/

namespace CNTKNode

/-- MatrixType of the Matrix backend: the release functions only compare
against SPARSE. -/
inductive MatrixFormat where
  | dense : MatrixFormat
  | sparse : MatrixFormat
deriving DecidableEq

/-- A device matrix: dimensions, storage format, and entries (row-major). -/
structure Mat where
  numRows : Nat
  numCols : Nat
  format : MatrixFormat
  entries : List Int
deriving DecidableEq

/-- The error kinds of the source: `RuntimeError`, `LogicError`,
`InvalidArgument` (raised by `UpCast` on a mismatching or null pointer),
and a dereference of a null `shared_ptr` (undefined behaviour in C++,
modelled as a distinct fatal error). -/
inductive CErr where
  | runtimeError : CErr
  | logicError : CErr
  | invalidArgument : CErr
  | nullDeref : CErr
deriving DecidableEq

/-- The state of one `ComputationNode`, flattened from the C++ inheritance
chain (`ComputationNodeBase`, `ComputationNetworkOwnedNodeState`,
`TimeStamp`, `ComputationNode<ElemType>`).

* `inputs` is `m_inputs`: an entry is the arena index of the child, `none`
  is a null pointer.
* `sampleLayout` is `m_sampleLayout` as its list of axis extents
  (`TensorShape::GetNumElements` is their product, `shape[0]` the head).
* `mbLayoutNumCols` is `some c` when the node carries an `MBLayout` whose
  `GetNumCols()` is `c`, `none` when `m_pMBLayout` is null.
* `expectedNumInputs` is the `NumInputs<N>` capability trait: `some N`
  when the concrete node class derives from it (`dynamic_cast<INumInputs*>`
  succeeds), `none` otherwise.
* `requiresPreCompute` models the virtual `RequiresPreCompute()` (base
  returns false, precompute nodes override it to true).
* `value` and `gradient` are `m_value` / `m_gradient` (`none` = null). -/
structure Node where
  operationName : String
  nodeName : String
  deviceId : Int
  inputs : List (Option Nat)
  sampleLayout : List Nat
  mbLayoutNumCols : Option Nat
  evalTimeStamp : Int
  needsGradient : Bool
  parameterUpdateRequired : Bool
  valueSharable : Bool
  isPartOfLoop : Bool
  outputNeededDuringBackprop : Bool
  gradientInitialized : Bool
  requiresPreCompute : Bool
  expectedNumInputs : Option Nat
  value : Option Mat
  gradient : Option Mat
deriving DecidableEq

/-- A freshly constructed node: the member initializers of the
`ComputationNodeBase`, `ComputationNetworkOwnedNodeState` and `TimeStamp`
constructors (`m_outputNeededDuringBackprop = true`,
`m_parameterUpdateRequired = false`, `m_gradientInitialized = false`,
`m_needsGradient = false`, `m_valueSharable = true`,
`m_isPartOfLoop = false`); the time stamp is passed in by the caller
(`ResetEvalTimeStamp` reads the global counter). -/
def freshNode (opName : String) (name : String) (deviceId : Int) (ts : Int) : Node :=
  { operationName := opName
    nodeName := name
    deviceId := deviceId
    inputs := []
    sampleLayout := []
    mbLayoutNumCols := none
    evalTimeStamp := ts
    needsGradient := false
    parameterUpdateRequired := false
    valueSharable := true
    isPartOfLoop := false
    outputNeededDuringBackprop := true
    gradientInitialized := false
    requiresPreCompute := false
    expectedNumInputs := none
    value := none
    gradient := none }

/-- Arena default, used by `getNode` for indices outside the arena. -/
def defaultNode : Node := freshNode "" "" 0 0

/-- Look a node up in the arena. -/
def getNode (g : List Node) (i : Nat) : Node := g.getD i defaultNode

/-- `FrameRange`: the claims here only inspect `IsAllFrames()` (whole
minibatch versus a single time step). -/
structure FrameRange where
  isAllFrames : Bool
deriving DecidableEq

/-! ### TimeStamp (lines 225-266) -/

/-- Wrap an unbounded integer into the value the same bit pattern denotes
as a signed 64-bit `int64_t`. -/
def wrap64 (x : Int) : Int := (x + 2 ^ 63) % 2 ^ 64 - 2 ^ 63

/-- `int64_t` subtraction with two's-complement overflow. -/
def int64Sub (a b : Int) : Int := wrap64 (a - b)

/-- `TimeStamp::IsOlderThan` (line 252): the difference of the two stamps
is taken in `int64_t` and compared `<= 0`; the source's own BUGBUG comment
notes that equality is included although it "does not indicate being
older". -/
def isOlderThan (thisTs otherTs : Int) : Bool := int64Sub thisTs otherTs ≤ 0

/-- Loop body of `ComputationNodeBase::IsOutputOlderThanInputs` (lines
871-881): return true at the first input the node is not newer than; a
null input pointer would be dereferenced. -/
def isOutputOlderThanInputsLoop (g : List Node) (ts : Int) :
    List (Option Nat) → Except CErr Bool
  | [] => Except.ok false
  | none :: _ => Except.error CErr.nullDeref
  | some m :: rest =>
    if isOlderThan ts (getNode g m).evalTimeStamp then Except.ok true
    else isOutputOlderThanInputsLoop g ts rest

/-- `ComputationNodeBase::IsOutputOlderThanInputs`. -/
def IsOutputOlderThanInputs (g : List Node) (n : Node) : Except CErr Bool :=
  isOutputOlderThanInputsLoop g n.evalTimeStamp n.inputs

/-! ### Sample-matrix interpretation (lines 374-393) -/

/-- `GetSampleMatrixNumRows` = `m_sampleLayout.GetNumElements()`, the
product of the axis extents. -/
def getSampleMatrixNumRows (n : Node) : Nat := n.sampleLayout.prod

/-- `GetSampleMatrixNumCols` (lines 382-388): the layout's column count
when the node carries one, else 1 (a one-sample minibatch meant to
broadcast). -/
def getSampleMatrixNumCols (n : Node) : Nat :=
  match n.mbLayoutNumCols with
  | some c => c
  | none => 1

/-- `ComputationNodeBase::ReducesInTimeWrt` (lines 390-393). -/
def ReducesInTimeWrt (a other : Node) : Bool :=
  getSampleMatrixNumCols a < getSampleMatrixNumCols other

/-- `DetermineDataSize` (lines 1387-1400): rows and columns the node's
matrix storage should have. -/
def determineDataSize (n : Node) : Nat × Nat :=
  match n.mbLayoutNumCols with
  | some _ => (getSampleMatrixNumRows n, getSampleMatrixNumCols n)
  | none =>
    let rows : Nat :=
      match n.sampleLayout with
      | [] => 0
      | d :: _ => d
    (rows, if rows > 0 then n.sampleLayout.prod / rows else 0)

/-! ### Validation (lines 489-504) -/

/-- First loop of `ComputationNodeBase::Validate`: reject a null input. -/
def validateNullCheck : List (Option Nat) → Except CErr Unit
  | [] => Except.ok ()
  | none :: _ => Except.error CErr.runtimeError
  | some _ :: rest => validateNullCheck rest

/-- Second loop of `ComputationNodeBase::Validate` (final pass only):
reject an input with 0 elements; a null child would be dereferenced. -/
def validateEmptyCheck (g : List Node) : List (Option Nat) → Except CErr Unit
  | [] => Except.ok ()
  | none :: _ => Except.error CErr.nullDeref
  | some c :: rest =>
    if getSampleMatrixNumRows (getNode g c) = 0 then Except.error CErr.runtimeError
    else validateEmptyCheck g rest

/-- `ComputationNodeBase::Validate` (lines 489-504). -/
def Validate (g : List Node) (n : Node) (isFinalValidationPass : Bool) :
    Except CErr Unit :=
  match validateNullCheck n.inputs with
  | Except.error e => Except.error e
  | Except.ok _ =>
    if isFinalValidationPass then validateEmptyCheck g n.inputs
    else Except.ok ()

/-! ### AttachInputs (lines 1067-1082) -/

/-- `ComputationNode::AttachInputs`: the arity of a node deriving from
`NumInputs<N>` is checked before `m_inputs` is touched; all nodes of the
arena share one element type, so the per-element `UpCast` type check always
succeeds and nulls are kept as nulls. -/
def AttachInputs (n : Node) (inputs : List (Option Nat)) : Except CErr Node :=
  match n.expectedNumInputs with
  | some k =>
    if k ≠ inputs.length then Except.error CErr.runtimeError
    else Except.ok { n with inputs := inputs }
  | none => Except.ok { n with inputs := inputs }

/-! ### Buffer pool hooks (lines 723-730, 1119-1153) -/

/-- `ComputationNodeBase::IsOutputNeededDuringBackprop` (lines 727-730):
`!g_shareNodeValueMatrices || m_outputNeededDuringBackprop`; the global
flag is passed explicitly. -/
def IsOutputNeededDuringBackprop (share : Bool) (n : Node) : Bool :=
  !share || n.outputNeededDuringBackprop

/-- `SetOutputNeededDuringBackprop` (lines 723-726). -/
def SetOutputNeededDuringBackprop (n : Node) (f : Bool) : Node :=
  { n with outputNeededDuringBackprop := f }

/-- `ComputationNode::ReleaseMatricesAfterForwardProp` (lines 1119-1123):
the pool is a list of buffers, releasing appends.  The short-circuit order
of the source is kept: when the output is needed during backprop the value
pointer is never dereferenced. -/
def ReleaseMatricesAfterForwardProp (share : Bool) (n : Node) (pool : List Mat) :
    Except CErr (List Mat) :=
  if !IsOutputNeededDuringBackprop share n then
    match n.value with
    | none => Except.error CErr.nullDeref
    | some v =>
      if v.format ≠ MatrixFormat.sparse ∧ n.valueSharable then Except.ok (pool ++ [v])
      else Except.ok pool
  else Except.ok pool

/-- `IsLeaf` (lines 701-704). -/
def isLeaf (n : Node) : Bool := n.inputs.length = 0

/-- `ComputationNode::ReleaseMatricesAfterBackprop` (lines 1141-1153). -/
def ReleaseMatricesAfterBackprop (share : Bool) (n : Node) (pool : List Mat) :
    Except CErr (List Mat) :=
  if !isLeaf n ∧ !n.requiresPreCompute then
    let pool1 :=
      match n.gradient with
      | some gm => if gm.format ≠ MatrixFormat.sparse then pool ++ [gm] else pool
      | none => pool
    if IsOutputNeededDuringBackprop share n then
      match n.value with
      | none => Except.error CErr.nullDeref
      | some v =>
        if v.format ≠ MatrixFormat.sparse ∧ n.valueSharable then Except.ok (pool1 ++ [v])
        else Except.ok pool1
    else Except.ok pool1
  else Except.ok pool

/-! ### Lazy gradient zeroing (lines 1535-1554) -/

/-- `Matrix::Resize`: dimensions change, storage format is kept; the
entries after a resize are unspecified in the backend and are immediately
overwritten by `SetValue(0)` wherever the node code resizes. -/
def matResize (m : Mat) (r c : Nat) : Mat :=
  { m with
    numRows := r
    numCols := c
    entries := (m.entries ++ List.replicate (r * c) 0).take (r * c) }

/-- `Matrix::SetValue(x)`: every entry becomes `x`. -/
def matSetValue (m : Mat) (x : Int) : Mat :=
  { m with entries := List.replicate (m.numRows * m.numCols) x }

/-- `ComputationNode::LazyZeroGradient` (lines 1542-1554). -/
def LazyZeroGradient (n : Node) : Except CErr Node :=
  if !n.needsGradient then Except.error CErr.logicError
  else if n.gradientInitialized then Except.ok n
  else
    match n.gradient with
    | none => Except.error CErr.nullDeref
    | some m =>
      let d := determineDataSize n
      Except.ok
        { n with
          gradient := some (matSetValue (matResize m d.1 d.2) 0)
          gradientInitialized := true }

/-- Loop of `ComputationNode::ZeroGradientsOfInputs` (lines 1535-1539):
`Input(i)` upcasts the pointer (`InvalidArgument` on a null input), then
the child's `m_gradientInitialized` is cleared in place. -/
def clearInputGradFlags : List Node → List (Option Nat) → Except CErr (List Node)
  | g, [] => Except.ok g
  | _, none :: _ => Except.error CErr.invalidArgument
  | g, some c :: rest =>
    clearInputGradFlags (g.set c { getNode g c with gradientInitialized := false }) rest

/-- `ComputationNode::ZeroGradientsOfInputs`. -/
def ZeroGradientsOfInputs (g : List Node) (n : Node) : Except CErr (List Node) :=
  clearInputGradFlags g n.inputs

/-! ### Backprop driver entry (lines 1492-1532) -/

/-- The gate of `ComputationNode::Backprop` (lines 1500-1502): the child
needs a gradient, and `childrenInThisLoop` permits a child in the same
loop partition, `childrenInOuterLoop` one in the other partition. -/
def backpropGate (self child : Node) (childrenInThisLoop childrenInOuterLoop : Bool) :
    Bool :=
  child.needsGradient &&
    ((childrenInThisLoop && (child.isPartOfLoop == self.isPartOfLoop)) ||
     (childrenInOuterLoop && (child.isPartOfLoop != self.isPartOfLoop)))

/-- Loop of `ComputationNode::Backprop` over the inputs: `i` is the index
of the head of `rest` in `m_inputs`, `calls` accumulates the indices
passed to `BackpropTo(i, fr)` (the virtual operator kernel itself is out
of scope; the call order and the graph mutations of `LazyZeroGradient`
are recorded). -/
def backpropLoop (self : Node) (fr : FrameRange)
    (childrenInThisLoop childrenInOuterLoop : Bool) :
    List Node → Nat → List (Option Nat) → List Nat → Except CErr (List Node × List Nat)
  | g, _, [], calls => Except.ok (g, calls)
  | _, _, none :: _, _ => Except.error CErr.invalidArgument
  | g, i, some c :: rest, calls =>
    let child := getNode g c
    if backpropGate self child childrenInThisLoop childrenInOuterLoop then
      if !self.needsGradient then Except.error CErr.logicError
      else
        match LazyZeroGradient child with
        | Except.error e => Except.error e
        | Except.ok child' =>
          let g' := g.set c child'
          if self.isPartOfLoop && !child.isPartOfLoop && !fr.isAllFrames then
            Except.error CErr.logicError
          else
            backpropLoop self fr childrenInThisLoop childrenInOuterLoop
              g' (i + 1) rest (calls ++ [i])
    else
      backpropLoop self fr childrenInThisLoop childrenInOuterLoop g (i + 1) rest calls

/-- `ComputationNode::Backprop` (lines 1492-1532): the network's entry
point into a node's backward step. -/
def Backprop (g : List Node) (selfId : Nat) (fr : FrameRange)
    (childrenInThisLoop childrenInOuterLoop : Bool) :
    Except CErr (List Node × List Nat) :=
  let self := getNode g selfId
  if fr.isAllFrames && self.isPartOfLoop && childrenInThisLoop then
    Except.error CErr.logicError
  else
    backpropLoop self fr childrenInThisLoop childrenInOuterLoop g 0 self.inputs []

/-! ### CopyTo and Duplicate (lines 293-312, 1632-1653) -/

/-- `CopyNodeFlags` bit masks (lines 53-60). -/
def copyNodeValue : Nat := 1

/-- `CopyNodeFlags::copyNodeChildren`. -/
def copyNodeChildren : Nat := 2

/-- `ComputationNodeBase::CopyTo` (lines 293-312): copy from `src`
(`this`) into `tgt` (the `node` argument).  `copyNodeChildren` carries the
input links over; `copyNodeValue` carries device, update flag, the NEW
name, sample layout, the network-owned state (`m_isPartOfLoop`,
`m_needsGradient`) and the time stamp. -/
def baseCopyTo (src tgt : Node) (newName : String) (flags : Nat) : Except CErr Node :=
  if src.operationName ≠ tgt.operationName then Except.error CErr.runtimeError
  else
    let t1 :=
      if flags &&& copyNodeChildren ≠ 0 then { tgt with inputs := src.inputs } else tgt
    let t2 :=
      if flags &&& copyNodeValue ≠ 0 then
        { t1 with
          deviceId := src.deviceId
          parameterUpdateRequired := src.parameterUpdateRequired
          nodeName := newName
          sampleLayout := src.sampleLayout
          isPartOfLoop := src.isPartOfLoop
          needsGradient := src.needsGradient
          evalTimeStamp := src.evalTimeStamp }
      else t1
    Except.ok t2

/-- `ComputationNode<ElemType>::CopyTo` (lines 1632-1644): the base copy,
then under `copyNodeValue` the contents of `m_value` are assigned
(`*node->m_value = *m_value`, dereferencing both pointers) and likewise
`m_gradient` when the source has one, else the target's gradient pointer
is nulled. -/
def copyTo (src tgt : Node) (newName : String) (flags : Nat) : Except CErr Node :=
  match baseCopyTo src tgt newName flags with
  | Except.error e => Except.error e
  | Except.ok t1 =>
    if flags &&& copyNodeValue ≠ 0 then
      match src.value, t1.value with
      | some sv, some _ =>
        let t2 := { t1 with value := some sv }
        match src.gradient with
        | some sg =>
          match t1.gradient with
          | some _ => Except.ok { t2 with gradient := some sg }
          | none => Except.error CErr.nullDeref
        | none => Except.ok { t2 with gradient := none }
      | _, _ => Except.error CErr.nullDeref
    else Except.ok t1

/-- `ComputationNode::Duplicate` (lines 1647-1653): a fresh node of the
same concrete type is built by `NewThis` (constructor defaults, the
chosen name, the current global time stamp `tsc`), and then the source
executes `node->CopyTo(shared_from_this(), newName, flags)` - the freshly
created node is the receiver (`this`, the copy SOURCE of `CopyTo`) and
the original node is the argument (the copy TARGET).  The result is the
pair (returned node, original node after the call). -/
def Duplicate (tsc : Int) (orig : Node) (newName : String) (flags : Nat) :
    Except CErr (Node × Node) :=
  let name := if newName = "" then orig.nodeName else newName
  let fresh := freshNode orig.operationName name orig.deviceId tsc
  match copyTo fresh orig newName flags with
  | Except.error e => Except.error e
  | Except.ok orig' => Except.ok (fresh, orig')

/-! ### Topological enumeration (lines 826-864) -/

-- State of the traversal below: the pair (visited set, result list),
-- the `visited` / `result` reference parameters of `EnumerateNodesRec`.
mutual

/-- `ComputationNodeBase::EnumerateNodesRec` (lines 845-864): skip a node
already visited, mark it visited, recurse into the non-null children
(unless the node is a PairNetwork boundary and `skipPair` is set), then
append the node itself.  The C++ recursion is made total by fuel; any
fuel above the depth of the acyclic part reached gives the C++
behaviour. -/
def enumerateNodesRec (g : List Node) (skipPair : Bool) :
    Nat → Nat → List Nat × List Nat → List Nat × List Nat
  | 0, _, s => s
  | Nat.succ fuel, n, s =>
    if n ∈ s.1 then s
    else
      let s1 : List Nat × List Nat := (n :: s.1, s.2)
      let s2 :=
        if skipPair ∧ (getNode g n).operationName = "PairNetwork" then s1
        else enumerateChildren g skipPair fuel (getNode g n).inputs s1
      (s2.1, s2.2 ++ [n])

/-- The `for` loop over `m_inputs` inside `EnumerateNodesRec`: null
children are skipped. -/
def enumerateChildren (g : List Node) (skipPair : Bool) :
    Nat → List (Option Nat) → List Nat × List Nat → List Nat × List Nat
  | _, [], s => s
  | fuel, none :: rest, s => enumerateChildren g skipPair fuel rest s
  | fuel, some m :: rest, s =>
    enumerateChildren g skipPair fuel rest (enumerateNodesRec g skipPair fuel m s)

end

/-- `ComputationNodeBase::EnumerateNodes` (lines 826-835): run the
recursion from each root in turn over one shared visited set, starting
from empty state. -/
def EnumerateNodes (g : List Node) (roots : List Nat) (skipPair : Bool)
    (fuel : Nat) : List Nat :=
  (roots.foldl (fun s root => enumerateNodesRec g skipPair fuel root s) ([], [])).2

/-! ## Theorems -/

/-- C9: `ReducesInTimeWrt` is exactly the strict comparison of effective
sample-matrix column counts, where the effective count is the layout's
column count when the node carries a layout and 1 when it does not. -/
theorem claim_C9 (a other : Node) :
    (ReducesInTimeWrt a other = true ↔
      getSampleMatrixNumCols a < getSampleMatrixNumCols other) ∧
    (∀ c, a.mbLayoutNumCols = some c → getSampleMatrixNumCols a = c) ∧
    (a.mbLayoutNumCols = none → getSampleMatrixNumCols a = 1) := by
  refine ⟨by simp [ReducesInTimeWrt], ?_, ?_⟩
  · intro c hc
    simp [getSampleMatrixNumCols, hc]
  · intro hc
    simp [getSampleMatrixNumCols, hc]

/-- C10: with the global `g_shareNodeValueMatrices` flag false,
`IsOutputNeededDuringBackprop` is true whatever was set through
`SetOutputNeededDuringBackprop`, and `ReleaseMatricesAfterForwardProp`
returns the pool unchanged for every node. -/
theorem claim_C10 (n : Node) (f : Bool) (pool : List Mat) :
    IsOutputNeededDuringBackprop false (SetOutputNeededDuringBackprop n f) = true ∧
    ReleaseMatricesAfterForwardProp false (SetOutputNeededDuringBackprop n f) pool =
      Except.ok pool ∧
    ReleaseMatricesAfterForwardProp false n pool = Except.ok pool := by
  refine ⟨rfl, ?_, ?_⟩ <;>
    simp [ReleaseMatricesAfterForwardProp, IsOutputNeededDuringBackprop]

/-- C6: `AttachInputs` raises a runtime error exactly when the node
declares a fixed arity through the `NumInputs<N>` trait and the supplied
count differs from it; otherwise it stores exactly the supplied inputs
(nulls permitted) and changes nothing else; on error the input list is
untouched (the check runs before any assignment, and the model returns no
node at all). -/
theorem claim_C6 (n : Node) (ins : List (Option Nat)) :
    (∀ k, n.expectedNumInputs = some k → k ≠ ins.length →
      AttachInputs n ins = Except.error CErr.runtimeError) ∧
    ((∀ k, n.expectedNumInputs = some k → k = ins.length) →
      AttachInputs n ins = Except.ok { n with inputs := ins }) := by
  constructor
  · intro k hk hne
    simp [AttachInputs, hk, hne]
  · intro h
    cases he : n.expectedNumInputs with
    | none => simp [AttachInputs, he]
    | some k => simp [AttachInputs, he, h k he]

/-- C7: the base `Validate` succeeds exactly when every input is non-null
and, in the final validation pass, every input has a nonzero number of
elements; being a `const` method it changes no node state (the embedding
returns only a unit). -/
theorem claim_C7 (g : List Node) (n : Node) (isFinal : Bool) :
    Validate g n isFinal = Except.ok () ↔
      ((∀ inp ∈ n.inputs, inp ≠ none) ∧
       (isFinal = true → ∀ m, some m ∈ n.inputs →
          getSampleMatrixNumRows (getNode g m) ≠ 0)) := by
  have hnc : ∀ l : List (Option Nat),
      (validateNullCheck l = Except.ok () ↔ ∀ inp ∈ l, inp ≠ none) := by
    intro l
    induction l with
    | nil => simp [validateNullCheck]
    | cons hd tl ih =>
      cases hd with
      | none => simp [validateNullCheck]
      | some m => simpa [validateNullCheck] using ih
  have hec : ∀ l : List (Option Nat), (∀ inp ∈ l, inp ≠ none) →
      (validateEmptyCheck g l = Except.ok () ↔
        ∀ m, some m ∈ l → getSampleMatrixNumRows (getNode g m) ≠ 0) := by
    intro l hl
    induction l with
    | nil => simp [validateEmptyCheck]
    | cons hd tl ih =>
      cases hd with
      | none => exact absurd rfl (hl none (by simp))
      | some m =>
        have htl := ih fun inp h => hl inp (List.mem_cons_of_mem _ h)
        by_cases hz : getSampleMatrixNumRows (getNode g m) = 0
        · simp [validateEmptyCheck, hz]
        · simp [validateEmptyCheck, hz, htl]
  constructor
  · intro h
    cases hvc : validateNullCheck n.inputs with
    | error e => simp [Validate, hvc] at h
    | ok u =>
      cases u
      have hnn := (hnc n.inputs).1 hvc
      refine ⟨hnn, ?_⟩
      intro hf m hm
      rw [Validate, hvc, hf] at h
      simp only [if_true] at h
      exact (hec n.inputs hnn).1 h m hm
  · rintro ⟨hnn, hfin⟩
    have hvc := (hnc n.inputs).2 hnn
    rw [Validate, hvc]
    cases hf : isFinal with
    | false => simp
    | true => simpa using (hec n.inputs hnn).2 (hfin hf)

/-- C5: `ReleaseMatricesAfterForwardProp` returns the value buffer to the
pool iff the output is not needed during backprop, the buffer is dense
and the value is sharable; `ReleaseMatricesAfterBackprop`, for a node
that is neither a leaf nor a precompute node, releases the gradient
buffer when present and dense and the value buffer when retained for
backward use, dense and sharable, and releases nothing for leaves and
precompute nodes. -/
theorem claim_C5 (share : Bool) (n : Node) (v : Mat) (pool : List Mat)
    (hv : n.value = some v) :
    (ReleaseMatricesAfterForwardProp share n pool = Except.ok (pool ++ [v]) ↔
      IsOutputNeededDuringBackprop share n = false ∧
        v.format ≠ MatrixFormat.sparse ∧ n.valueSharable = true) ∧
    (isLeaf n = false → n.requiresPreCompute = false →
      ReleaseMatricesAfterBackprop share n pool =
        Except.ok
          ((match n.gradient with
            | some gm =>
              if gm.format ≠ MatrixFormat.sparse then pool ++ [gm] else pool
            | none => pool) ++
           (if IsOutputNeededDuringBackprop share n = true ∧
               v.format ≠ MatrixFormat.sparse ∧ n.valueSharable = true then [v]
            else []))) ∧
    (isLeaf n = true ∨ n.requiresPreCompute = true →
      ReleaseMatricesAfterBackprop share n pool = Except.ok pool) := by
  refine ⟨?_, ?_, ?_⟩
  · cases hneed : IsOutputNeededDuringBackprop share n with
    | false =>
      by_cases hs : v.format = MatrixFormat.sparse
      · simp [ReleaseMatricesAfterForwardProp, hneed, hv, hs]
      · cases hsh : n.valueSharable with
        | false => simp [ReleaseMatricesAfterForwardProp, hneed, hv, hs, hsh]
        | true => simp [ReleaseMatricesAfterForwardProp, hneed, hv, hs, hsh]
    | true => simp [ReleaseMatricesAfterForwardProp, hneed, hv]
  · intro hleaf hpre
    cases hneed : IsOutputNeededDuringBackprop share n with
    | false =>
      cases hg : n.gradient with
      | none => simp [ReleaseMatricesAfterBackprop, hleaf, hpre, hneed, hg]
      | some gm => simp [ReleaseMatricesAfterBackprop, hleaf, hpre, hneed, hg]
    | true =>
      by_cases hs : v.format = MatrixFormat.sparse
      · cases hg : n.gradient with
        | none => simp [ReleaseMatricesAfterBackprop, hleaf, hpre, hneed, hg, hv, hs]
        | some gm => simp [ReleaseMatricesAfterBackprop, hleaf, hpre, hneed, hg, hv, hs]
      · cases hsh : n.valueSharable with
        | false =>
          cases hg : n.gradient with
          | none =>
            simp [ReleaseMatricesAfterBackprop, hleaf, hpre, hneed, hg, hv, hs, hsh]
          | some gm =>
            simp [ReleaseMatricesAfterBackprop, hleaf, hpre, hneed, hg, hv, hs, hsh]
        | true =>
          cases hg : n.gradient with
          | none =>
            simp [ReleaseMatricesAfterBackprop, hleaf, hpre, hneed, hg, hv, hs, hsh]
          | some gm =>
            simp [ReleaseMatricesAfterBackprop, hleaf, hpre, hneed, hg, hv, hs, hsh]
  · intro h
    rcases h with h | h <;> simp [ReleaseMatricesAfterBackprop, h]

/-- Concrete node used by the witness of C5: dense sharable value, not
needed during backprop under buffer sharing. -/
def c5Val : Mat := { numRows := 2, numCols := 3, format := MatrixFormat.dense, entries := [] }

/-- Concrete node for the C5 witness. -/
def c5Node : Node :=
  { defaultNode with
    outputNeededDuringBackprop := false
    value := some c5Val }

/-- Witness for C5: on a node whose dense sharable value is not needed
during backprop (sharing enabled), the value buffer is released. -/
theorem claim_C5_witness :
    c5Node.value = some c5Val ∧
    ReleaseMatricesAfterForwardProp true c5Node [] = Except.ok ([] ++ [c5Val]) :=
  ⟨rfl, (claim_C5 true c5Node c5Val [] rfl).1.mpr (by decide)⟩

/-! ### C2: the recompute-skip test -/

/-- Time stamps produced by the global counter: it starts at 0 and counts
up, so real stamps stay in the nonnegative half of `int64_t`. -/
def tsInRange (x : Int) : Prop := 0 ≤ x ∧ x < 2 ^ 63

/-- For stamps in the counter's range, the wrapped 64-bit difference test
of `IsOlderThan` is exactly the equality-inclusive comparison
`thisTs ≤ otherTs`. -/
theorem isOlderThan_eq_le (a b : Int) (ha : tsInRange a) (hb : tsInRange b) :
    (isOlderThan a b = true ↔ a ≤ b) := by
  obtain ⟨ha0, ha1⟩ := ha
  obtain ⟨hb0, hb1⟩ := hb
  have e63 : (2 : Int) ^ 63 = 9223372036854775808 := by norm_num
  have e64 : (2 : Int) ^ 64 = 18446744073709551616 := by norm_num
  have h1 : (0 : Int) ≤ a - b + 2 ^ 63 := by rw [e63]; rw [e63] at ha1 hb1; omega
  have h2 : a - b + 2 ^ 63 < 2 ^ 64 := by
    rw [e63, e64]; rw [e63] at ha1 hb1; omega
  have hmod : (a - b + 2 ^ 63) % 2 ^ 64 = a - b + 2 ^ 63 := Int.emod_eq_of_lt h1 h2
  simp only [isOlderThan, int64Sub, wrap64, hmod, decide_eq_true_eq]
  omega

/-- The input loop of `IsOutputOlderThanInputs`, characterized over
non-null inputs with in-range stamps: it answers true exactly when some
input's stamp is greater than or EQUAL to the node's, false exactly when
every input's stamp is strictly below the node's. -/
theorem isOutputOlderThanInputsLoop_iff (g : List Node) (ts : Int)
    (l : List (Option Nat))
    (hnn : ∀ inp ∈ l, inp ≠ none)
    (hts : tsInRange ts)
    (hall : ∀ m, some m ∈ l → tsInRange (getNode g m).evalTimeStamp) :
    (isOutputOlderThanInputsLoop g ts l = Except.ok true ↔
      ∃ m, some m ∈ l ∧ ts ≤ (getNode g m).evalTimeStamp) ∧
    (isOutputOlderThanInputsLoop g ts l = Except.ok false ↔
      ∀ m, some m ∈ l → (getNode g m).evalTimeStamp < ts) := by
  induction l with
  | nil => simp [isOutputOlderThanInputsLoop]
  | cons hd tl ih =>
    cases hd with
    | none => exact absurd rfl (hnn none (by simp))
    | some m =>
      have hm := hall m (by simp)
      have htl := ih (fun inp h => hnn inp (List.mem_cons_of_mem _ h))
        (fun m' h => hall m' (List.mem_cons_of_mem _ h))
      by_cases hle : ts ≤ (getNode g m).evalTimeStamp
      · have hb : isOlderThan ts (getNode g m).evalTimeStamp = true :=
          (isOlderThan_eq_le ts _ hts hm).2 hle
        have hunf : isOutputOlderThanInputsLoop g ts (some m :: tl) = Except.ok true := by
          simp [isOutputOlderThanInputsLoop, hb]
        refine ⟨⟨fun _ => ⟨m, by simp, hle⟩, fun _ => hunf⟩, ?_, ?_⟩
        · intro h
          rw [hunf] at h
          exact absurd h (by simp)
        · intro h
          exact absurd (h m (by simp)) (not_lt.2 hle)
      · have hb : isOlderThan ts (getNode g m).evalTimeStamp = false := by
          cases hx : isOlderThan ts (getNode g m).evalTimeStamp with
          | false => rfl
          | true => exact absurd ((isOlderThan_eq_le ts _ hts hm).1 hx) hle
        constructor
        · simp only [isOutputOlderThanInputsLoop, hb, Bool.false_eq_true, if_false]
          rw [htl.1]
          constructor
          · rintro ⟨m', hmem, hle'⟩
            exact ⟨m', List.mem_cons_of_mem _ hmem, hle'⟩
          · rintro ⟨m', hmem, hle'⟩
            rcases List.mem_cons.1 hmem with heq | hmem'
            · cases heq
              exact absurd hle' hle
            · exact ⟨m', hmem', hle'⟩
        · simp only [isOutputOlderThanInputsLoop, hb, Bool.false_eq_true, if_false]
          rw [htl.2]
          constructor
          · intro h m' hmem
            rcases List.mem_cons.1 hmem with heq | hmem'
            · cases heq
              exact not_le.1 hle
            · exact h m' hmem'
          · intro h m' hmem
            exact h m' (List.mem_cons_of_mem _ hmem)

/-- Two-node arena refuting C2 as stated: node 0 and its single input,
node 1, carry the SAME stamp 5. -/
def c2Graph : List Node :=
  [ { defaultNode with evalTimeStamp := 5, inputs := [some 1] },
    { defaultNode with evalTimeStamp := 5 } ]

/-- Counterexample to C2 as stated: no input's stamp strictly exceeds the
node's own (both are 5), yet `IsOutputOlderThanInputs` answers true - the
equality-inclusive `IsOlderThan` makes a tie count as "older", so
recomputation is NOT skipped at a tie. -/
theorem claim_C2_counterexample :
    IsOutputOlderThanInputs c2Graph (getNode c2Graph 0) = Except.ok true ∧
    (getNode c2Graph 0).evalTimeStamp = 5 ∧
    (getNode c2Graph 0).inputs = [some 1] ∧
    (getNode c2Graph 1).evalTimeStamp = 5 := by
  refine ⟨?_, rfl, rfl, rfl⟩
  rfl

/-- C2 amended: `IsOutputOlderThanInputs` reports "needs recomputation"
iff some input's stamp is greater than OR EQUAL to the node's own stamp
(a tie counts as older, per the source's own BUGBUG comment);
recomputation is skipped exactly when the node's stamp strictly exceeds
every input's.  Stated for non-null inputs and stamps in the global
counter's range. -/
theorem claim_C2_amended (g : List Node) (n : Node)
    (hnn : ∀ inp ∈ n.inputs, inp ≠ none)
    (hts : tsInRange n.evalTimeStamp)
    (hall : ∀ m, some m ∈ n.inputs → tsInRange (getNode g m).evalTimeStamp) :
    (IsOutputOlderThanInputs g n = Except.ok true ↔
      ∃ m, some m ∈ n.inputs ∧ n.evalTimeStamp ≤ (getNode g m).evalTimeStamp) ∧
    (IsOutputOlderThanInputs g n = Except.ok false ↔
      ∀ m, some m ∈ n.inputs → (getNode g m).evalTimeStamp < n.evalTimeStamp) :=
  isOutputOlderThanInputsLoop_iff g n.evalTimeStamp n.inputs hnn hts hall

/-- Arena for the C2 witness: node 0 (stamp 3) has one input, node 1
(stamp 7). -/
def c2wGraph : List Node :=
  [ { defaultNode with evalTimeStamp := 3, inputs := [some 1] },
    { defaultNode with evalTimeStamp := 7 } ]

/-- Witness for the amended C2 at a concrete input: a node with stamp 3
whose input has stamp 7 reports that it needs recomputation. -/
theorem claim_C2_amended_witness :
    IsOutputOlderThanInputs c2wGraph (getNode c2wGraph 0) = Except.ok true :=
  ((claim_C2_amended c2wGraph (getNode c2wGraph 0)
      (by decide)
      (by constructor <;> norm_num [getNode, c2wGraph, defaultNode, freshNode])
      (by
        intro m hm
        have hm' : m = 1 := by
          simpa [getNode, c2wGraph, defaultNode, freshNode] using hm
        subst hm'
        constructor <;> norm_num [getNode, c2wGraph, defaultNode, freshNode])).1).mpr
    ⟨1, by simp [getNode, c2wGraph, defaultNode, freshNode], by
      norm_num [getNode, c2wGraph, defaultNode, freshNode]⟩

/-! ### C4: lazy gradient zeroing discipline -/

/-- Arena lookup outside the arena yields the default node. -/
theorem getNode_length_le (g : List Node) (i : Nat) (h : g.length ≤ i) :
    getNode g i = defaultNode := by
  simp [getNode, List.getD_eq_getElem?_getD, List.getElem?_eq_none h]

/-- Arena lookup of an updated slot. -/
theorem getNode_set_self (g : List Node) (c : Nat) (nd : Node) (h : c < g.length) :
    getNode (g.set c nd) c = nd := by
  simp [getNode, List.getD_eq_getElem?_getD, List.getElem?_set_self',
    List.getElem?_eq_getElem h]

/-- Arena lookup elsewhere after an update. -/
theorem getNode_set_ne (g : List Node) (c j : Nat) (nd : Node) (h : c ≠ j) :
    getNode (g.set c nd) j = getNode g j := by
  simp [getNode, List.getD_eq_getElem?_getD, List.getElem?_set_ne h]

/-- The flag-clearing loop of `ZeroGradientsOfInputs`: over non-null
inputs it succeeds, every listed child's initialized flag ends false, and
a flag that is already false stays false. -/
theorem clearInputGradFlags_spec (l : List (Option Nat)) :
    ∀ g : List Node, (∀ inp ∈ l, inp ≠ none) →
    ∃ g', clearInputGradFlags g l = Except.ok g' ∧
      (∀ c, some c ∈ l → (getNode g' c).gradientInitialized = false) ∧
      (∀ j, (getNode g j).gradientInitialized = false →
        (getNode g' j).gradientInitialized = false) := by
  induction l with
  | nil =>
    intro g _
    exact ⟨g, rfl, by simp, fun j h => h⟩
  | cons hd tl ih =>
    intro g hnn
    cases hd with
    | none => exact absurd rfl (hnn none (by simp))
    | some c =>
      have hmemtl : ∀ inp ∈ tl, inp ≠ none :=
        fun inp h => hnn inp (List.mem_cons_of_mem _ h)
      obtain ⟨g', hrun, hcl, hmono⟩ :=
        ih (g.set c { getNode g c with gradientInitialized := false }) hmemtl
      have hcflag :
          (getNode (g.set c { getNode g c with gradientInitialized := false }) c).gradientInitialized
            = false := by
        by_cases hc : c < g.length
        · rw [getNode_set_self g c _ hc]
        · rw [List.set_eq_of_length_le (le_of_not_lt hc),
            getNode_length_le g c (le_of_not_lt hc)]
          rfl
      refine ⟨g', hrun, ?_, ?_⟩
      · intro c' hmem
        rcases List.mem_cons.1 hmem with heq | hmem'
        · have hc' : c' = c := by injection heq
          rw [hc']
          exact hmono c hcflag
        · exact hcl c' hmem'
      · intro j hj
        apply hmono
        by_cases hjc : j = c
        · subst hjc
          exact hcflag
        · rw [getNode_set_ne g c j _ (Ne.symm hjc)]
          exact hj

/-- C4: `ZeroGradientsOfInputs` clears the initialized flag of every
input; the first `LazyZeroGradient` on an uninitialized node resizes the
gradient buffer to the node's current dimensions, zeroes it and sets the
flag; any later call before the flag is cleared again returns the node
unchanged; and calling it on a node that needs no gradient is a logic
error. -/
theorem claim_C4 (g : List Node) (n : Node) (m : Mat)
    (hnn : ∀ inp ∈ n.inputs, inp ≠ none) :
    (∃ g', ZeroGradientsOfInputs g n = Except.ok g' ∧
      ∀ c, some c ∈ n.inputs → (getNode g' c).gradientInitialized = false) ∧
    (n.needsGradient = true → n.gradientInitialized = false → n.gradient = some m →
      LazyZeroGradient n =
        Except.ok
          { n with
            gradient := some
              { m with
                numRows := (determineDataSize n).1
                numCols := (determineDataSize n).2
                entries :=
                  List.replicate ((determineDataSize n).1 * (determineDataSize n).2) 0 }
            gradientInitialized := true }) ∧
    (∀ n' : Node, n'.needsGradient = true → n'.gradientInitialized = true →
      LazyZeroGradient n' = Except.ok n') ∧
    (∀ n' : Node, n'.needsGradient = false →
      LazyZeroGradient n' = Except.error CErr.logicError) := by
  refine ⟨?_, ?_, ?_, ?_⟩
  · obtain ⟨g', hrun, hcl, _⟩ := clearInputGradFlags_spec n.inputs g hnn
    exact ⟨g', hrun, hcl⟩
  · intro hng hgi hg
    simp [LazyZeroGradient, hng, hgi, hg, matResize, matSetValue]
  · intro n' h1 h2
    simp [LazyZeroGradient, h1, h2]
  · intro n' h
    simp [LazyZeroGradient, h]

/-- Matrix for the C4 witness. -/
def c4Mat : Mat :=
  { numRows := 1, numCols := 1, format := MatrixFormat.dense, entries := [7] }

/-- Node for the C4 witness: needs a gradient, flag not yet set, sample
shape [2, 3] and no minibatch layout. -/
def c4Node : Node :=
  { defaultNode with
    inputs := [some 1]
    needsGradient := true
    sampleLayout := [2, 3]
    gradient := some c4Mat }

/-- Witness for C4: the first `LazyZeroGradient` on the concrete node
resizes the 1x1 gradient to the node's 2x3 data size, zeroes it and sets
the flag. -/
theorem claim_C4_witness :
    LazyZeroGradient c4Node =
      Except.ok
        { c4Node with
          gradient := some
            { c4Mat with
              numRows := (determineDataSize c4Node).1
              numCols := (determineDataSize c4Node).2
              entries :=
                List.replicate
                  ((determineDataSize c4Node).1 * (determineDataSize c4Node).2) 0 }
          gradientInitialized := true } :=
  (claim_C4 [] c4Node c4Mat (by decide)).2.1 rfl rfl rfl

/-! ### C8: Duplicate copies in the wrong direction -/

/-- Concrete original node for C8: a two-input operation is not needed;
one input and a name suffice to exhibit the defect. -/
def c8Orig : Node :=
  { defaultNode with
    operationName := "Times"
    nodeName := "w"
    inputs := [some 7]
    needsGradient := true }

/-- C8 evaluated on the code: `Duplicate` executes
`node->CopyTo(shared_from_this(), newName, flags)`, so the freshly
created node is the SOURCE of the copy and the original is the TARGET.
With `copyNodeChildren` the original's input list is overwritten with the
fresh node's empty list and the returned node carries nothing over; with
`copyNodeValue` set the call dereferences the fresh node's null `m_value`.
The claim's "structurally identical copy, original unchanged" fails on
both counts. -/
theorem claim_C8_code_bug :
    Duplicate 0 c8Orig "copy" copyNodeChildren =
      Except.ok (freshNode "Times" "copy" 0 0, { c8Orig with inputs := [] }) ∧
    c8Orig.inputs = [some 7] ∧
    (freshNode "Times" "copy" 0 0).inputs = [] ∧
    Duplicate 0 c8Orig "copy" (copyNodeValue ||| copyNodeChildren) =
      Except.error CErr.nullDeref := by
  refine ⟨?_, rfl, rfl, ?_⟩ <;> rfl

/-! ### C3: the Backprop gate -/

/-- The gate in propositional form. -/
theorem backpropGate_eq_true_iff (self child : Node) (thisL outL : Bool) :
    backpropGate self child thisL outL = true ↔
      child.needsGradient = true ∧
        ((thisL = true ∧ child.isPartOfLoop = self.isPartOfLoop) ∨
         (outL = true ∧ child.isPartOfLoop ≠ self.isPartOfLoop)) := by
  simp [backpropGate]

/-- The gate only reads the child's needs-gradient and part-of-loop
flags. -/
theorem backpropGate_congr (self c1 c2 : Node) (thisL outL : Bool)
    (h1 : c1.needsGradient = c2.needsGradient)
    (h2 : c1.isPartOfLoop = c2.isPartOfLoop) :
    backpropGate self c1 thisL outL = backpropGate self c2 thisL outL := by
  simp [backpropGate, h1, h2]

/-- A successful `LazyZeroGradient` keeps the gate-relevant flags and
leaves the node with a gradient buffer or the initialized flag set. -/
theorem lazyZeroGradient_ok_fields {n n' : Node}
    (h : LazyZeroGradient n = Except.ok n') :
    n'.needsGradient = n.needsGradient ∧ n'.isPartOfLoop = n.isPartOfLoop ∧
      (n'.gradient ≠ none ∨ n'.gradientInitialized = true) := by
  unfold LazyZeroGradient at h
  by_cases h1 : n.needsGradient = true
  · simp only [h1, Bool.not_true, Bool.false_eq_true, if_false] at h
    by_cases h2 : n.gradientInitialized = true
    · simp only [h2, if_true, Except.ok.injEq] at h
      cases h
      exact ⟨rfl, rfl, Or.inr h2⟩
    · simp only [h2, if_false] at h
      cases hg : n.gradient with
      | none => rw [hg] at h; exact absurd h (by simp)
      | some m =>
        rw [hg] at h
        simp only [Except.ok.injEq] at h
        cases h
        exact ⟨h1.symm, rfl, Or.inl (by simp)⟩
  · have h1' : n.needsGradient = false := by
      revert h1
      cases n.needsGradient <;> simp
    rw [h1'] at h
    exact absurd h (by simp)

/-- The indices of the inputs that pass the gate, with `i` the index of
the head of `l` - the declarative shape of the loop's `BackpropTo` call
list. -/
def gatedIdx (g : List Node) (self : Node) (thisL outL : Bool) :
    Nat → List (Option Nat) → List Nat
  | _, [] => []
  | i, none :: rest => gatedIdx g self thisL outL (i + 1) rest
  | i, some c :: rest =>
    if backpropGate self (getNode g c) thisL outL then
      i :: gatedIdx g self thisL outL (i + 1) rest
    else gatedIdx g self thisL outL (i + 1) rest

/-- `gatedIdx` only depends on the gates. -/
theorem gatedIdx_congr (g g' : List Node) (self : Node) (thisL outL : Bool)
    (h : ∀ c : Nat, backpropGate self (getNode g' c) thisL outL =
      backpropGate self (getNode g c) thisL outL) :
    ∀ (l : List (Option Nat)) (i : Nat),
      gatedIdx g' self thisL outL i l = gatedIdx g self thisL outL i l := by
  intro l
  induction l with
  | nil => intro i; rfl
  | cons hd rest ih =>
    intro i
    cases hd with
    | none => simpa [gatedIdx] using ih (i + 1)
    | some c => simp [gatedIdx, h c, ih (i + 1)]

/-- Membership in `gatedIdx`: exactly the positions whose (non-null)
child passes the gate. -/
theorem mem_gatedIdx (g : List Node) (self : Node) (thisL outL : Bool) :
    ∀ (l : List (Option Nat)) (i0 k : Nat),
      k ∈ gatedIdx g self thisL outL i0 l ↔
        ∃ j c, l.getD j none = some c ∧ k = i0 + j ∧
          backpropGate self (getNode g c) thisL outL = true := by
  intro l
  induction l with
  | nil =>
    intro i0 k
    simp [gatedIdx]
  | cons hd rest ih =>
    intro i0 k
    cases hd with
    | none =>
      rw [show gatedIdx g self thisL outL i0 (none :: rest) =
            gatedIdx g self thisL outL (i0 + 1) rest from rfl, ih (i0 + 1) k]
      constructor
      · rintro ⟨j, c, hj, hk, hg⟩
        exact ⟨j + 1, c, by simpa using hj, by omega, hg⟩
      · rintro ⟨j, c, hj, hk, hg⟩
        cases j with
        | zero => simp at hj
        | succ j' => exact ⟨j', c, by simpa using hj, by omega, hg⟩
    | some c0 =>
      by_cases hg0 : backpropGate self (getNode g c0) thisL outL = true
      · rw [show gatedIdx g self thisL outL i0 (some c0 :: rest) =
              i0 :: gatedIdx g self thisL outL (i0 + 1) rest by
            simp [gatedIdx, hg0]]
        simp only [List.mem_cons]
        rw [ih (i0 + 1) k]
        constructor
        · rintro (rfl | ⟨j, c, hj, hk, hg⟩)
          · exact ⟨0, c0, by simp, by omega, hg0⟩
          · exact ⟨j + 1, c, by simpa using hj, by omega, hg⟩
        · rintro ⟨j, c, hj, hk, hg⟩
          cases j with
          | zero =>
            left
            omega
          | succ j' =>
            right
            exact ⟨j', c, by simpa using hj, by omega, hg⟩
      · have hg0' : backpropGate self (getNode g c0) thisL outL = false := by
          revert hg0
          cases backpropGate self (getNode g c0) thisL outL <;> simp
        rw [show gatedIdx g self thisL outL i0 (some c0 :: rest) =
              gatedIdx g self thisL outL (i0 + 1) rest by
            simp [gatedIdx, hg0']]
        rw [ih (i0 + 1) k]
        constructor
        · rintro ⟨j, c, hj, hk, hg⟩
          exact ⟨j + 1, c, by simpa using hj, by omega, hg⟩
        · rintro ⟨j, c, hj, hk, hg⟩
          cases j with
          | zero =>
            have hc : c0 = c := by simpa using hj
            subst hc
            exact absurd hg hg0
          | succ j' =>
            exact ⟨j', c, by simpa using hj, by omega, hg⟩

/-- The input loop of `Backprop`, over non-null inputs whose gated
children can be lazily zeroed and raise no loop-efficiency error: it
succeeds and the recorded `BackpropTo` indices are exactly the gated
positions. -/
theorem backpropLoop_spec (self : Node) (fr : FrameRange) (thisL outL : Bool)
    (hsg : self.needsGradient = true) :
    ∀ (l : List (Option Nat)) (g : List Node) (i : Nat) (calls : List Nat),
      (∀ inp ∈ l, inp ≠ none) →
      (∀ c, some c ∈ l → backpropGate self (getNode g c) thisL outL = true →
        ((getNode g c).gradient ≠ none ∨ (getNode g c).gradientInitialized = true)) →
      (∀ c, some c ∈ l → backpropGate self (getNode g c) thisL outL = true →
        self.isPartOfLoop = true → fr.isAllFrames = false →
        (getNode g c).isPartOfLoop = true) →
      ∃ g', backpropLoop self fr thisL outL g i l calls =
          Except.ok (g', calls ++ gatedIdx g self thisL outL i l) := by
  intro l
  induction l with
  | nil =>
    intro g i calls _ _ _
    exact ⟨g, by simp [backpropLoop, gatedIdx]⟩
  | cons hd rest ih =>
    intro g i calls hnn h2 h3
    cases hd with
    | none => exact absurd rfl (hnn none (by simp))
    | some c =>
      by_cases hgate : backpropGate self (getNode g c) thisL outL = true
      case neg =>
        have hgate' : backpropGate self (getNode g c) thisL outL = false := by
          revert hgate
          cases backpropGate self (getNode g c) thisL outL <;> simp
        obtain ⟨g', hrun⟩ := ih g (i + 1) calls
          (fun inp h => hnn inp (List.mem_cons_of_mem _ h))
          (fun c' h => h2 c' (List.mem_cons_of_mem _ h))
          (fun c' h => h3 c' (List.mem_cons_of_mem _ h))
        exact ⟨g', by simp [backpropLoop, hgate', gatedIdx, hrun]⟩
      case pos =>
        have hcng : (getNode g c).needsGradient = true :=
          ((backpropGate_eq_true_iff self (getNode g c) thisL outL).1 hgate).1
        have hlz : ∃ child', LazyZeroGradient (getNode g c) = Except.ok child' := by
          by_cases h2i : (getNode g c).gradientInitialized = true
          · exact ⟨getNode g c, by simp [LazyZeroGradient, hcng, h2i]⟩
          · rcases h2 c (by simp) hgate with hgr | hgr
            · cases hgrad : (getNode g c).gradient with
              | none => exact absurd hgrad hgr
              | some m =>
                exact ⟨{ getNode g c with
                    gradient := some (matSetValue
                      (matResize m (determineDataSize (getNode g c)).1
                        (determineDataSize (getNode g c)).2) 0)
                    gradientInitialized := true },
                  by simp [LazyZeroGradient, hcng, h2i, hgrad]⟩
            · exact absurd hgr h2i
        obtain ⟨child', hchild'⟩ := hlz
        obtain ⟨hf1, hf2, hf3⟩ := lazyZeroGradient_ok_fields hchild'
        have heff :
            (self.isPartOfLoop && !(getNode g c).isPartOfLoop && !fr.isAllFrames) = false := by
          by_cases hsl : self.isPartOfLoop = true
          · by_cases haf : fr.isAllFrames = true
            · simp [haf]
            · have haf' : fr.isAllFrames = false := by
                revert haf
                cases fr.isAllFrames <;> simp
              simp [h3 c (by simp) hgate hsl haf']
          · have hsl' : self.isPartOfLoop = false := by
              revert hsl
              cases self.isPartOfLoop <;> simp
            simp [hsl']
        have hgNode : ∀ j : Nat,
            getNode (g.set c child') j = getNode g j ∨
              (j = c ∧ getNode (g.set c child') j = child') := by
          intro j
          by_cases hc : c < g.length
          · by_cases hjc : j = c
            · subst hjc
              exact Or.inr ⟨rfl, getNode_set_self g j child' hc⟩
            · exact Or.inl (getNode_set_ne g c j child' (Ne.symm hjc))
          · rw [List.set_eq_of_length_le (le_of_not_lt hc)]
            exact Or.inl rfl
        have hgateEq : ∀ j : Nat,
            backpropGate self (getNode (g.set c child') j) thisL outL =
              backpropGate self (getNode g j) thisL outL := by
          intro j
          rcases hgNode j with he | ⟨hj, he⟩
          · rw [he]
          · subst hj
            rw [he]
            exact backpropGate_congr self child' (getNode g j) thisL outL hf1 hf2
        have h2' : ∀ c', some c' ∈ rest →
            backpropGate self (getNode (g.set c child') c') thisL outL = true →
            ((getNode (g.set c child') c').gradient ≠ none ∨
              (getNode (g.set c child') c').gradientInitialized = true) := by
          intro c' hmem hq
          rcases hgNode c' with he | ⟨hj, he⟩
          · rw [he]
            rw [he] at hq
            exact h2 c' (List.mem_cons_of_mem _ hmem) hq
          · rw [he]
            exact hf3
        have h3' : ∀ c', some c' ∈ rest →
            backpropGate self (getNode (g.set c child') c') thisL outL = true →
            self.isPartOfLoop = true → fr.isAllFrames = false →
            (getNode (g.set c child') c').isPartOfLoop = true := by
          intro c' hmem hq hsl haf
          rcases hgNode c' with he | ⟨hj, he⟩
          · rw [he]
            rw [he] at hq
            exact h3 c' (List.mem_cons_of_mem _ hmem) hq hsl haf
          · subst hj
            rw [he, hf2]
            exact h3 c' (by simp) hgate hsl haf
        obtain ⟨g', hrun⟩ := ih (g.set c child') (i + 1) (calls ++ [i])
          (fun inp h => hnn inp (List.mem_cons_of_mem _ h)) h2' h3'
        refine ⟨g', ?_⟩
        rw [show gatedIdx g self thisL outL i (some c :: rest) =
              i :: gatedIdx g self thisL outL (i + 1) rest by
            simp [gatedIdx, hgate]]
        rw [gatedIdx_congr g (g.set c child') self thisL outL hgateEq rest (i + 1)] at hrun
        simp only [backpropLoop, hgate, if_true, hsg, Bool.not_true, Bool.false_eq_true,
          if_false, hchild', heff]
        rw [hrun]
        simp

/-- C3: the base `Backprop` raises a logic error whenever it receives the
whole-batch FrameRange while the node is loop-resident and
`childrenInThisLoop` is set; otherwise (over non-null inputs, with the
node's needs-gradient flag set and no loop-efficiency violation among the
gated children) it succeeds and invokes `BackpropTo(i, fr)` exactly for
the indices whose child needs a gradient and passes the matching gate:
`childrenInThisLoop` when the child's part-of-loop flag equals this
node's, `childrenInOuterLoop` when it differs. -/
theorem claim_C3 (g : List Node) (selfId : Nat) (fr : FrameRange)
    (thisL outL : Bool) :
    (fr.isAllFrames = true → (getNode g selfId).isPartOfLoop = true → thisL = true →
      Backprop g selfId fr thisL outL = Except.error CErr.logicError) ∧
    (¬(fr.isAllFrames = true ∧ (getNode g selfId).isPartOfLoop = true ∧ thisL = true) →
     (getNode g selfId).needsGradient = true →
     (∀ inp ∈ (getNode g selfId).inputs, inp ≠ none) →
     (∀ c, some c ∈ (getNode g selfId).inputs →
        backpropGate (getNode g selfId) (getNode g c) thisL outL = true →
        ((getNode g c).gradient ≠ none ∨ (getNode g c).gradientInitialized = true)) →
     (∀ c, some c ∈ (getNode g selfId).inputs →
        backpropGate (getNode g selfId) (getNode g c) thisL outL = true →
        (getNode g selfId).isPartOfLoop = true → fr.isAllFrames = false →
        (getNode g c).isPartOfLoop = true) →
     ∃ g' calls, Backprop g selfId fr thisL outL = Except.ok (g', calls) ∧
       ∀ k : Nat, k ∈ calls ↔
         ∃ c, (getNode g selfId).inputs.getD k none = some c ∧
           (getNode g c).needsGradient = true ∧
           ((thisL = true ∧ (getNode g c).isPartOfLoop = (getNode g selfId).isPartOfLoop) ∨
            (outL = true ∧ (getNode g c).isPartOfLoop ≠ (getNode g selfId).isPartOfLoop))) := by
  constructor
  · intro haf hloop hthis
    simp [Backprop, haf, hloop, hthis]
  · intro hnot hsg hnn h2 h3
    have hcond :
        (fr.isAllFrames && (getNode g selfId).isPartOfLoop && thisL) = false := by
      cases haf : fr.isAllFrames <;> cases hlp : (getNode g selfId).isPartOfLoop <;>
        cases ht : thisL <;> simp_all
    obtain ⟨g', hrun⟩ := backpropLoop_spec (getNode g selfId) fr thisL outL hsg
      (getNode g selfId).inputs g 0 [] hnn h2 h3
    refine ⟨g', gatedIdx g (getNode g selfId) thisL outL 0 (getNode g selfId).inputs,
      ?_, ?_⟩
    · simp only [Backprop, hcond, Bool.false_eq_true, if_false]
      simpa using hrun
    · intro k
      rw [mem_gatedIdx g (getNode g selfId) thisL outL (getNode g selfId).inputs 0 k]
      constructor
      · rintro ⟨j, c, hj, hk, hg⟩
        have hkj : k = j := by omega
        subst hkj
        obtain ⟨hng, hcase⟩ :=
          (backpropGate_eq_true_iff (getNode g selfId) (getNode g c) thisL outL).1 hg
        exact ⟨c, hj, hng, hcase⟩
      · rintro ⟨c, hj, hng, hcase⟩
        exact ⟨k, c, hj, by omega,
          (backpropGate_eq_true_iff (getNode g selfId) (getNode g c) thisL outL).2
            ⟨hng, hcase⟩⟩

/-! ### C1: topological soundness of EnumerateNodes -/

/-- The result list is topologically ordered: wherever it splits around a
node, every non-null input of that node lies in the part before it. -/
def Ordered (g : List Node) (r : List Nat) : Prop :=
  ∀ l1 n l2, r = l1 ++ n :: l2 → ∀ m, some m ∈ (getNode g n).inputs → m ∈ l1

/-- Invariant of a traversal state: the result has no duplicates, results
are visited, and the result is topologically ordered. -/
def StateInv (g : List Node) (s : List Nat × List Nat) : Prop :=
  s.2.Nodup ∧ (∀ x ∈ s.2, x ∈ s.1) ∧ Ordered g s.2

/-- How one traversal state evolves into another: the visited set grows,
the result is extended at the back, the set of visited-but-unfinished
nodes does not grow, and newly finished nodes were not previously
visited. -/
def Extends (s s' : List Nat × List Nat) : Prop :=
  (∀ x ∈ s.1, x ∈ s'.1) ∧ (∃ t, s'.2 = s.2 ++ t) ∧
  (∀ x, x ∈ s'.1 → x ∉ s'.2 → x ∈ s.1 ∧ x ∉ s.2) ∧
  (∀ x, x ∈ s'.2 → x ∉ s.2 → x ∉ s.1)

/-- `Extends` is reflexive. -/
theorem extends_refl (s : List Nat × List Nat) : Extends s s :=
  ⟨fun _ h => h, ⟨[], by simp⟩, fun _ h h2 => ⟨h, h2⟩, fun _ h h2 => absurd h h2⟩

/-- `Extends` composes. -/
theorem extends_trans {s1 s2 s3 : List Nat × List Nat}
    (h12 : Extends s1 s2) (h23 : Extends s2 s3) : Extends s1 s3 := by
  obtain ⟨a12, ⟨t12, b12⟩, c12, d12⟩ := h12
  obtain ⟨a23, ⟨t23, b23⟩, c23, d23⟩ := h23
  refine ⟨fun x h => a23 x (a12 x h),
    ⟨t12 ++ t23, by rw [b23, b12, List.append_assoc]⟩, ?_, ?_⟩
  · intro x h3 h3n
    obtain ⟨h2, h2n⟩ := c23 x h3 h3n
    exact c12 x h2 h2n
  · intro x h3 hn1
    by_cases h2 : x ∈ s2.2
    · exact d12 x h2 hn1
    · intro hx1
      exact d23 x h3 h2 (a12 x hx1)

/-- Splitting a list that ends in one appended element. -/
theorem append_singleton_split {α : Type} (l l1 l2 : List α) (a x : α)
    (h : l ++ [a] = l1 ++ x :: l2) :
    (l1 = l ∧ x = a ∧ l2 = []) ∨ ∃ l2', l2 = l2' ++ [a] ∧ l = l1 ++ x :: l2' := by
  rcases List.eq_nil_or_concat l2 with h2 | ⟨l2', b, h2⟩
  · subst h2
    have hlen : l.length = l1.length := by
      have := congrArg List.length h
      simpa using this
    obtain ⟨h1, h3⟩ := List.append_inj h hlen
    have hax : a = x := by simpa using h3
    exact Or.inl ⟨h1.symm, hax.symm, rfl⟩
  · subst h2
    rw [List.concat_eq_append] at h
    have h' : l ++ [a] = (l1 ++ x :: l2') ++ [b] := by
      rw [h]
      simp
    have hlen : l.length = (l1 ++ x :: l2').length := by
      have := congrArg List.length h'
      simp at this ⊢
      omega
    obtain ⟨h1, h3⟩ := List.append_inj h' hlen
    have hab : a = b := by simpa using h3
    subst hab
    exact Or.inr ⟨l2', by simp, h1⟩

/-- Appending a node whose inputs are all already in an ordered list
keeps the list ordered. -/
theorem ordered_append (g : List Node) (r : List Nat) (n : Nat)
    (ho : Ordered g r) (hin : ∀ m, some m ∈ (getNode g n).inputs → m ∈ r) :
    Ordered g (r ++ [n]) := by
  intro l1 x l2 hsplit m hm
  rcases append_singleton_split r l1 l2 n x hsplit with ⟨h1, h2, _⟩ | ⟨l2', _, h3⟩
  · subst h1
    subst h2
    exact hin m hm
  · exact ho l1 x l2' h3 m hm

/-- What one recursive visit guarantees, at a given fuel. -/
def RecSpec (g : List Node) (rank : Nat → Nat) (fuel : Nat) : Prop :=
  ∀ n s, rank n < fuel → StateInv g s →
    (∀ x ∈ s.1, x ∉ s.2 → rank n < rank x) →
    StateInv g (enumerateNodesRec g false fuel n s) ∧
    Extends s (enumerateNodesRec g false fuel n s) ∧
    n ∈ (enumerateNodesRec g false fuel n s).2

/-- What the children loop guarantees, at a given fuel. -/
def KidsSpec (g : List Node) (rank : Nat → Nat) (fuel : Nat) : Prop :=
  ∀ l s, (∀ m, some m ∈ l → rank m < fuel) → StateInv g s →
    (∀ x ∈ s.1, x ∉ s.2 → ∀ m, some m ∈ l → rank m < rank x) →
    StateInv g (enumerateChildren g false fuel l s) ∧
    Extends s (enumerateChildren g false fuel l s) ∧
    ∀ m, some m ∈ l → m ∈ (enumerateChildren g false fuel l s).2

/-- The children loop inherits its guarantee from the recursive visit at
the same fuel. -/
theorem kids_of_rec (g : List Node) (rank : Nat → Nat) (fuel : Nat)
    (hrec : RecSpec g rank fuel) : KidsSpec g rank fuel := by
  intro l
  induction l with
  | nil =>
    intro s _ hinv _
    have hstep : enumerateChildren g false fuel [] s = s := by
      simp [enumerateChildren]
    rw [hstep]
    exact ⟨hinv, extends_refl s, by simp⟩
  | cons hd rest ih =>
    intro s hb hinv hp
    cases hd with
    | none =>
      have hstep : enumerateChildren g false fuel (none :: rest) s =
          enumerateChildren g false fuel rest s := by
        simp [enumerateChildren]
      rw [hstep]
      have hb' : ∀ m, some m ∈ rest → rank m < fuel :=
        fun m h => hb m (List.mem_cons_of_mem _ h)
      have hp' : ∀ x ∈ s.1, x ∉ s.2 → ∀ m, some m ∈ rest → rank m < rank x :=
        fun x hx hnx m h => hp x hx hnx m (List.mem_cons_of_mem _ h)
      obtain ⟨h1, h2, h3⟩ := ih s hb' hinv hp'
      refine ⟨h1, h2, ?_⟩
      intro m hm
      rcases List.mem_cons.1 hm with heq | hm'
      · exact absurd heq (by simp)
      · exact h3 m hm'
    | some m0 =>
      have hm0 : rank m0 < fuel := hb m0 (by simp)
      obtain ⟨hinv1, hext1, hmem1⟩ :=
        hrec m0 s hm0 hinv (fun x hx hnx => hp x hx hnx m0 (by simp))
      have hb' : ∀ m, some m ∈ rest → rank m < fuel :=
        fun m h => hb m (List.mem_cons_of_mem _ h)
      have hp' : ∀ x ∈ (enumerateNodesRec g false fuel m0 s).1,
          x ∉ (enumerateNodesRec g false fuel m0 s).2 →
          ∀ m, some m ∈ rest → rank m < rank x := by
        intro x hx hnx m h
        obtain ⟨hx0, hnx0⟩ := hext1.2.2.1 x hx hnx
        exact hp x hx0 hnx0 m (List.mem_cons_of_mem _ h)
      obtain ⟨hinv2, hext2, hmem2⟩ :=
        ih (enumerateNodesRec g false fuel m0 s) hb' hinv1 hp'
      have hstep : enumerateChildren g false fuel (some m0 :: rest) s =
          enumerateChildren g false fuel rest (enumerateNodesRec g false fuel m0 s) := by
        simp [enumerateChildren]
      rw [hstep]
      refine ⟨hinv2, extends_trans hext1 hext2, ?_⟩
      intro m hm
      rcases List.mem_cons.1 hm with heq | hm'
      · have hmm : m = m0 := by injection heq
        subst hmm
        obtain ⟨t, ht⟩ := hext2.2.1
        rw [ht]
        exact List.mem_append_left _ hmem1
      · exact hmem2 m hm'

/-- At fuel 0 the recursive guarantee is vacuous. -/
theorem rec_zero (g : List Node) (rank : Nat → Nat) : RecSpec g rank 0 := by
  intro n s hn
  exact absurd hn (Nat.not_lt_zero _)

/-- One visit at fuel `fuel + 1`, given the children-loop guarantee at
`fuel` and rank-decrease along every input edge. -/
theorem rec_succ (g : List Node) (rank : Nat → Nat)
    (hed : ∀ a m, some m ∈ (getNode g a).inputs → rank m < rank a)
    (fuel : Nat) (hkids : KidsSpec g rank fuel) : RecSpec g rank (fuel + 1) := by
  intro n s hn hinv hp
  by_cases hvis : n ∈ s.1
  · have hres : enumerateNodesRec g false (fuel + 1) n s = s := by
      simp [enumerateNodesRec, hvis]
    rw [hres]
    refine ⟨hinv, extends_refl s, ?_⟩
    by_cases hr : n ∈ s.2
    · exact hr
    · exact absurd (hp n hvis hr) (lt_irrefl _)
  · have hres : enumerateNodesRec g false (fuel + 1) n s =
        ((enumerateChildren g false fuel (getNode g n).inputs (n :: s.1, s.2)).1,
         (enumerateChildren g false fuel (getNode g n).inputs (n :: s.1, s.2)).2 ++ [n]) := by
      simp [enumerateNodesRec, hvis]
    have hnr : n ∉ s.2 := fun h => hvis (hinv.2.1 n h)
    have hinv1 : StateInv g (n :: s.1, s.2) :=
      ⟨hinv.1, fun x hx => List.mem_cons_of_mem _ (hinv.2.1 x hx), hinv.2.2⟩
    have hb1 : ∀ m, some m ∈ (getNode g n).inputs → rank m < fuel := by
      intro m hm
      exact lt_of_lt_of_le (hed n m hm) (Nat.lt_succ_iff.1 hn)
    have hp1 : ∀ x ∈ (n :: s.1, s.2).1, x ∉ (n :: s.1, s.2).2 →
        ∀ m, some m ∈ (getNode g n).inputs → rank m < rank x := by
      intro x hx hnx m hm
      rcases List.mem_cons.1 hx with heq | hx'
      · rw [heq]
        exact hed n m hm
      · exact lt_trans (hed n m hm) (hp x hx' hnx)
    obtain ⟨hinv2, hext2, hmem2⟩ := hkids (getNode g n).inputs (n :: s.1, s.2) hb1 hinv1 hp1
    have hnin1 : n ∈ (n :: s.1, s.2).1 := by simp
    have hn2 : n ∈ (enumerateChildren g false fuel (getNode g n).inputs (n :: s.1, s.2)).1 :=
      hext2.1 n hnin1
    have hnr2 : n ∉ (enumerateChildren g false fuel (getNode g n).inputs (n :: s.1, s.2)).2 := by
      intro hcon
      exact hext2.2.2.2 n hcon hnr (by simp)
    rw [hres]
    refine ⟨⟨?_, ?_, ?_⟩, ⟨?_, ?_, ?_, ?_⟩, ?_⟩
    · simp only [List.nodup_append, List.nodup_cons, List.nodup_nil]
      exact ⟨hinv2.1, by simp, by simpa using hnr2⟩
    · intro x hx
      rcases List.mem_append.1 hx with hx' | hx'
      · exact hinv2.2.1 x hx'
      · have hxn : x = n := by simpa using hx'
        subst hxn
        exact hn2
    · exact ordered_append g _ n hinv2.2.2 hmem2
    · intro x hx
      exact hext2.1 x (List.mem_cons_of_mem _ hx)
    · obtain ⟨t, ht⟩ := hext2.2.1
      exact ⟨t ++ [n], by rw [ht]; simp⟩
    · intro x hx hnx
      have hx2 : x ∉ (enumerateChildren g false fuel (getNode g n).inputs (n :: s.1, s.2)).2 :=
        fun h => hnx (List.mem_append_left _ h)
      have hxn : x ≠ n := fun h => hnx (by simp [h])
      obtain ⟨hx1, hnx1⟩ := hext2.2.2.1 x hx hx2
      rcases List.mem_cons.1 hx1 with heq | hx1'
      · exact absurd heq hxn
      · exact ⟨hx1', hnx1⟩
    · intro x hx hnx
      rcases List.mem_append.1 hx with hx' | hx'
      · have := hext2.2.2.2 x hx' hnx
        intro hcon
        exact this (List.mem_cons_of_mem _ hcon)
      · have hxn : x = n := by simpa using hx'
        subst hxn
        exact hvis
    · exact List.mem_append_right _ (by simp)

/-- The recursive visit satisfies its guarantee at every fuel. -/
theorem rec_all (g : List Node) (rank : Nat → Nat)
    (hed : ∀ a m, some m ∈ (getNode g a).inputs → rank m < rank a) :
    ∀ fuel, RecSpec g rank fuel := by
  intro fuel
  induction fuel with
  | zero => exact rec_zero g rank
  | succ f ih => exact rec_succ g rank hed f (kids_of_rec g rank f ih)

/-- The fold over the roots preserves the invariant. -/
theorem roots_fold_spec (g : List Node) (rank : Nat → Nat)
    (hed : ∀ a m, some m ∈ (getNode g a).inputs → rank m < rank a) (fuel : Nat) :
    ∀ (roots : List Nat) (s : List Nat × List Nat),
      (∀ ro ∈ roots, rank ro < fuel) → StateInv g s →
      (∀ x ∈ s.1, x ∉ s.2 → ∀ ro ∈ roots, rank ro < rank x) →
      StateInv g (roots.foldl (fun s root => enumerateNodesRec g false fuel root s) s) := by
  intro roots
  induction roots with
  | nil =>
    intro s _ hinv _
    exact hinv
  | cons ro rest ih =>
    intro s hb hinv hp
    obtain ⟨hinv1, hext1, _⟩ := rec_all g rank hed fuel ro s (hb ro (by simp)) hinv
      (fun x hx hnx => hp x hx hnx ro (by simp))
    have hp' : ∀ x ∈ (enumerateNodesRec g false fuel ro s).1,
        x ∉ (enumerateNodesRec g false fuel ro s).2 →
        ∀ ro' ∈ rest, rank ro' < rank x := by
      intro x hx hnx ro' h
      obtain ⟨hx0, hnx0⟩ := hext1.2.2.1 x hx hnx
      exact hp x hx0 hnx0 ro' (List.mem_cons_of_mem _ h)
    have hb' : ∀ ro' ∈ rest, rank ro' < fuel :=
      fun ro' h => hb ro' (List.mem_cons_of_mem _ h)
    simpa using ih (enumerateNodesRec g false fuel ro s) hb' hinv1 hp'

/-- C1: over an acyclic input graph (witnessed by a rank function that
strictly decreases along every input edge of the arena) and fuel above
every root's rank, `EnumerateNodes` returns a list without duplicates in
which every node's non-null inputs appear strictly before the node. -/
theorem claim_C1 (g : List Node) (roots : List Nat) (rank : Nat → Nat) (fuel : Nat)
    (hrank : ∀ a, a < g.length → ∀ m, some m ∈ (getNode g a).inputs → rank m < rank a)
    (hfuel : ∀ ro ∈ roots, rank ro < fuel) :
    (EnumerateNodes g roots false fuel).Nodup ∧
    ∀ l1 n l2, EnumerateNodes g roots false fuel = l1 ++ n :: l2 →
      ∀ m, some m ∈ (getNode g n).inputs → m ∈ l1 := by
  have hed : ∀ a m, some m ∈ (getNode g a).inputs → rank m < rank a := by
    intro a m hm
    by_cases ha : a < g.length
    · exact hrank a ha m hm
    · rw [getNode_length_le g a (le_of_not_lt ha)] at hm
      exact absurd hm (by simp [defaultNode, freshNode])
  have hinv0 : StateInv g (([], []) : List Nat × List Nat) :=
    ⟨List.nodup_nil, by simp, by intro l1 n l2 h m hm; exact absurd h (by simp)⟩
  have h := roots_fold_spec g rank hed fuel roots ([], []) hfuel hinv0 (by simp)
  exact ⟨h.1, h.2.2⟩

/-- Diamond graph for the C1 witness: 0 reads 1 and 2, which both read
3. -/
def c1Graph : List Node :=
  [ { defaultNode with inputs := [some 1, some 2] },
    { defaultNode with inputs := [some 3] },
    { defaultNode with inputs := [some 3] },
    defaultNode ]

/-- Witness for C1 on the concrete diamond: enumeration from root 0 is
duplicate-free and lists every node after its inputs. -/
theorem claim_C1_witness :
    (EnumerateNodes c1Graph [0] false 4).Nodup ∧
    ∀ l1 n l2, EnumerateNodes c1Graph [0] false 4 = l1 ++ n :: l2 →
      ∀ m, some m ∈ (getNode c1Graph n).inputs → m ∈ l1 :=
  claim_C1 c1Graph [0] (fun n => 3 - n) 4
    (by
      intro a ha m hm
      show 3 - m < 3 - a
      simp only [c1Graph, List.length_cons, List.length_nil] at ha
      interval_cases a <;>
        simp [getNode, c1Graph, defaultNode, freshNode] at hm <;> omega)
    (by decide)

end CNTKNode
